import Mathlib

/-!
# The `mycdrv` ramdisk character driver (`char_driver.c`)

A shallow embedding of the driver's file operations.

* C integers are mathematical integers reduced explicitly at every conversion
  the C code performs (LP64: `int` is 32 bits, `size_t` and `loff_t` 64 bits).
* The ramdisk is the list of bytes of the block `kmalloc` returned; an access
  that leaves the block has no defined result and is the outcome `none`.
* `file->private_data` is passed as `device`, `file->f_pos` as `f_pos`, and the
  cell `*ppos` as `ppos`; every operation returns the new values.
* What the kernel decides is an argument: whether the wait in
  `down_interruptible` is broken by a signal, how many bytes a user copy leaves
  uncopied, which addresses `access_ok` accepts, the largest block `kmalloc`
  serves, and the results of `alloc_chrdev_region` and `cdev_add`.
* The array `virtual_devices` is a list of devices; a pointer into it
  (`private_data`) is an index. `my_init` returns the elements it has worked
  on, each with a flag telling whether its ramdisk block is still allocated.
-/

namespace CharDriver

/-- One `char`. -/
abbrev Byte := Fin 256

/-! ## Integer conversions -/

/-- Conversion to `size_t` / `unsigned long`: reduction modulo 2^64. -/
def to_size_t (x : Int) : Nat := (x % 18446744073709551616).toNat

/-- Conversion to `int`: 32 bits, two's complement. -/
def to_int (x : Int) : Int := (x + 2147483648) % 4294967296 - 2147483648

/-- Conversion to `loff_t`: 64 bits, two's complement. -/
def to_loff_t (x : Int) : Int :=
  (x + 9223372036854775808) % 18446744073709551616 - 9223372036854775808

/-- Largest `int`. -/
def INT_MAX : Nat := 2147483647

/-! ## Constants of the kernel headers and of the driver -/

def EINTR : Int := 4
def EFAULT : Int := 14
def EINVAL : Int := 22
def ENOTTY : Int := 25

def SEEK_SET : Int := 0
def SEEK_CUR : Int := 1
def SEEK_END : Int := 2

/-- Direction bits of an ioctl number (asm-generic/ioctl.h). -/
def IOC_WRITE : Nat := 1
def IOC_READ : Nat := 2

/-- The macro `_IOC_DIR`: bits 30..31 of the command. -/
def IOC_DIR (cmd : Nat) : Nat := (cmd >>> 30) &&& 3

/-- The macro `_IOC_TYPE`: bits 8..15 of the command. -/
def IOC_TYPE (cmd : Nat) : Nat := (cmd >>> 8) &&& 255

/-- The macro `_IOC_SIZE`: bits 16..29 of the command. -/
def IOC_SIZE (cmd : Nat) : Nat := (cmd >>> 16) &&& 16383

/-- The macro `_IO(type, nr)`: a command without direction and without size. -/
def io_cmd (type nr : Nat) : Nat := (0 <<< 30) ||| (type <<< 8) ||| (nr <<< 0) ||| (0 <<< 16)

/-- The character `k`. -/
def CDRV_IOC_MAGIC : Nat := 107
def NUM : Nat := 1
def ASP_CLEAR_BUFF : Nat := io_cmd CDRV_IOC_MAGIC NUM

/-- The value of `PAGE_SIZE` with 4 KiB pages. -/
def PAGE_SIZE : Nat := 4096
def ramdisk_size : Nat := 16 * PAGE_SIZE

/-! ## The device -/

/-- The record `struct fake_device`; `sem` is the count of the semaphore and
`ramdisk` the block the pointer refers to (`my_cdev` belongs to the
registration layer). -/
structure fake_device where
  sem : Nat
  ramdisk : List Byte
  device_num : Int
  size : Nat
  deriving DecidableEq, Repr

/-! ## Kernel services -/

/-- Semaphore acquisition: a free permit is taken at once; otherwise the caller
waits, and either a signal breaks the wait (`-EINTR`, nothing taken) or a
releasing holder hands its permit over (count stays 0). Returns the result and
the new count. -/
def down_interruptible (count : Nat) (signal : Bool) : Int × Nat :=
  if 0 < count then (0, count - 1)
  else if signal then (-EINTR, count)
  else (0, count)

/-- Semaphore release with nobody waiting. -/
def up (count : Nat) : Nat := count + 1

/-- Whether the `n` bytes at offset `off` lie inside a block of `len` bytes;
an access of no bytes touches nothing. -/
def in_block (len : Nat) (off : Int) (n : Nat) : Bool :=
  n == 0 || (decide (0 ≤ off) && decide (off + (n : Int) ≤ (len : Int)))

/-- Store `src` into the block at offset `off`. -/
def poke (block : List Byte) (off : Int) (src : List Byte) : Option (List Byte) :=
  if in_block block.length off src.length then
    some (block.take off.toNat ++ src ++ block.drop (off.toNat + src.length))
  else none

/-- Load `n` bytes of the block from offset `off`. -/
def peek (block : List Byte) (off : Int) (n : Nat) : Option (List Byte) :=
  if in_block block.length off n then some ((block.drop off.toNat).take n) else none

/-- The call `copy_to_user(buf, block + off, n)` when the user side leaves
`left` bytes uncopied: the bytes that reach `buf` and the return value. -/
def copy_to_user (block : List Byte) (off : Int) (n left : Nat) :
    Option (List Byte × Nat) :=
  (peek block off n).map fun bytes => (bytes.take (n - left), n - (n - left))

/-- The call `copy_from_user(block + off, buf, n)` when the user side leaves
`left` bytes uncopied (bytes past the end of `buf` cannot be read either):
the block afterwards and the return value. The part of the destination that
received no data is padded with zero bytes. -/
def copy_from_user (block : List Byte) (off : Int) (buf : List Byte) (n left : Nat) :
    Option (List Byte × Nat) :=
  let copied := min (n - left) buf.length
  (poke block off (buf.take copied ++ List.replicate (n - copied) 0)).map
    fun block1 => (block1, n - copied)

/-- The call `kmalloc(n, GFP_KERNEL)`: a block of `n` bytes of unspecified
content (here the slab poison byte), or `none` for NULL when the request
exceeds `KMALLOC_MAX_SIZE`. -/
def kmalloc (KMALLOC_MAX_SIZE n : Nat) : Option (List Byte) :=
  if n ≤ KMALLOC_MAX_SIZE then some (List.replicate n 90) else none

/-- The call `memcpy(dst, src, n)` on two blocks. -/
def memcpy (dst src : List Byte) (n : Nat) : Option (List Byte) :=
  if in_block src.length 0 n then poke dst 0 (src.take n) else none

/-- The call `memset(block + off, c, n)`. -/
def memset (block : List Byte) (off : Int) (c : Byte) (n : Nat) : Option (List Byte) :=
  poke block off (List.replicate n c)

/-! ## File operations -/

/-- What `mycdrv_read` leaves behind: the return value, the bytes that reached
the user buffer, `*ppos` and the device. -/
structure read_result where
  ret : Int
  buf : List Byte
  ppos : Int
  device : fake_device
  deriving DecidableEq, Repr

/-- What `mycdrv_write` leaves behind: the return value, `*ppos` and the device. -/
structure write_result where
  ret : Int
  ppos : Int
  device : fake_device
  deriving DecidableEq, Repr

/-- What `mycdrv_lseek` and `mycdrv_ioctl` leave behind: the return value,
`file->f_pos` and the device. -/
structure seek_result where
  ret : Int
  f_pos : Int
  device : fake_device
  deriving DecidableEq, Repr

/-- The function `mycdrv_read`. -/
def mycdrv_read (device : fake_device) (lbuf : Nat) (ppos : Int)
    (signal : Bool) (left : Nat) : Option read_result :=
  if (down_interruptible device.sem signal).1 ≠ 0 then
    some { ret := -1, buf := [], ppos := ppos, device := device }
  else
    let maxbytes : Int := to_int (to_size_t ((device.size : Int) - ppos))
    let bytes_to_do : Int :=
      to_int (if to_size_t maxbytes > lbuf then (lbuf : Int) else to_size_t maxbytes)
    (copy_to_user device.ramdisk ppos (to_size_t bytes_to_do) left).map fun out =>
      let nbytes : Int := to_int (to_size_t (bytes_to_do - out.2))
      { ret := nbytes, buf := out.1, ppos := to_loff_t (ppos + nbytes),
        device := { device with sem := up (down_interruptible device.sem signal).2 } }

/-- The function `mycdrv_write`. -/
def mycdrv_write (device : fake_device) (buf : List Byte) (lbuf : Nat) (ppos : Int)
    (signal : Bool) (left : Nat) : Option write_result :=
  if (down_interruptible device.sem signal).1 ≠ 0 then
    some { ret := -1, ppos := ppos, device := device }
  else
    let maxbytes : Int := to_int (to_size_t ((device.size : Int) - ppos))
    let bytes_to_do : Int :=
      to_int (if to_size_t maxbytes > lbuf then (lbuf : Int) else to_size_t maxbytes)
    (copy_from_user device.ramdisk ppos buf (to_size_t bytes_to_do) left).map fun out =>
      let nbytes : Int := to_int (to_size_t (bytes_to_do - out.2))
      { ret := nbytes, ppos := to_loff_t (ppos + nbytes),
        device := { device with
                    sem := up (down_interruptible device.sem signal).2, ramdisk := out.1 } }

/-- The `switch (orig)` of `mycdrv_lseek`: the absolute target, or `none` for
the default case. -/
def lseek_target (device : fake_device) (f_pos offset orig : Int) : Option Int :=
  if orig = SEEK_SET then some offset
  else if orig = SEEK_CUR then some (to_loff_t (f_pos + offset))
  else if orig = SEEK_END then some (to_loff_t ((device.size : Int) + offset))
  else none

/-- The function `mycdrv_lseek`. A NULL from `kmalloc` is written through by
the `memset` of the new tail, which is never empty on this branch. -/
def mycdrv_lseek (KMALLOC_MAX_SIZE : Nat) (device : fake_device) (f_pos offset orig : Int)
    (signal : Bool) : Option seek_result :=
  if (down_interruptible device.sem signal).1 ≠ 0 then
    some { ret := -1, f_pos := f_pos, device := device }
  else
    let sem := up (down_interruptible device.sem signal).2
    match lseek_target device f_pos offset orig with
    | none => some { ret := -EINVAL, f_pos := f_pos, device := { device with sem := sem } }
    | some testpos =>
      if to_int testpos > to_int device.size then
        let diff : Nat := to_size_t ((to_size_t testpos : Int) - device.size)
        (kmalloc KMALLOC_MAX_SIZE (to_size_t ((device.size : Int) + diff))).bind fun block =>
          (memcpy block device.ramdisk device.size).bind fun new_location =>
            (memset new_location device.size 0 diff).map fun ramdisk =>
              { ret := testpos, f_pos := testpos,
                device := { device with
                            sem := sem, ramdisk := ramdisk,
                            size := to_size_t ((device.size : Int) + diff) } }
      else
        let testpos : Int := if testpos ≥ 0 then testpos else 0
        some { ret := testpos, f_pos := testpos, device := { device with sem := sem } }

/-- The function `mycdrv_ioctl`; `access_ok addr size` is the kernel's check of
a user range. -/
def mycdrv_ioctl (access_ok : Nat → Nat → Bool) (device : fake_device) (f_pos : Int)
    (cmd arg : Nat) (signal : Bool) : Option seek_result :=
  if (down_interruptible device.sem signal).1 ≠ 0 then
    some { ret := -1, f_pos := f_pos, device := device }
  else
    let sem := up (down_interruptible device.sem signal).2
    if IOC_TYPE cmd ≠ CDRV_IOC_MAGIC then
      some { ret := -ENOTTY, f_pos := f_pos, device := { device with sem := sem } }
    else
      let err : Bool :=
        if IOC_DIR cmd &&& IOC_READ ≠ 0 then !access_ok arg (IOC_SIZE cmd)
        else if IOC_DIR cmd &&& IOC_WRITE ≠ 0 then !access_ok arg (IOC_SIZE cmd)
        else false
      if err then
        some { ret := -EFAULT, f_pos := f_pos, device := { device with sem := sem } }
      else if cmd = ASP_CLEAR_BUFF then
        (memset device.ramdisk 0 0 device.size).map fun ramdisk =>
          { ret := 0, f_pos := 0, device := { device with sem := sem, ramdisk := ramdisk } }
      else
        some { ret := -EINVAL, f_pos := f_pos, device := { device with sem := sem } }

/-! ## Device states -/

/-- Representation invariant of a device: `size` is the length of the block
behind `ramdisk`, and it fits the `int` the driver computes with, as the size
of every block `kmalloc` returns does. -/
def valid (d : fake_device) : Prop := d.ramdisk.length = d.size ∧ d.size ≤ INT_MAX

instance (d : fake_device) : Decidable (valid d) := by
  unfold valid
  infer_instance

/-- A device as `my_init` leaves it: sixteen zeroed pages, one permit. -/
def fresh_device (i : Int) : fake_device :=
  { sem := 1, ramdisk := List.replicate ramdisk_size 0, device_num := i, size := ramdisk_size }

/-- A four-byte device for small evaluations. -/
def tiny_device : fake_device :=
  { sem := 1, ramdisk := [1, 2, 3, 4], device_num := 0, size := 4 }
/-- A device whose guard is held by an operation in flight: no permit left. -/
def busy_device : fake_device :=
  { sem := 0, ramdisk := [1, 2, 3, 4], device_num := 0, size := 4 }

/-- An `access_ok` that accepts the ranges below the x86-64 user limit
`0x7ffffffff000`. -/
def access_ok_x86_64 (addr size : Nat) : Bool := decide (addr + size ≤ 140737488351232)

/-- The macro `_IOC(dir, type, nr, size)` of asm-generic/ioctl.h. -/
def ioc (dir type nr size : Nat) : Nat :=
  (dir <<< 30) ||| (type <<< 8) ||| (nr <<< 0) ||| (size <<< 16)

/-! ## Open and release -/

/-- The record `struct file` as far as the driver uses it: the position and
`private_data`, the index in `virtual_devices` of the device it points to
(`none` for a pointer not yet set). -/
structure file where
  f_pos : Int
  private_data : Option Nat
  deriving DecidableEq, Repr

/-- What `mycdrv_open` and `mycdrv_release` leave behind: the return value, the
array `virtual_devices` and the file. -/
structure open_result where
  ret : Int
  virtual_devices : List fake_device
  file : file
  deriving DecidableEq, Repr

/-- The function `mycdrv_open`; `i_cdev` is the index of the device whose
`my_cdev` the inode refers to, which `container_of` recovers. -/
def mycdrv_open (virtual_devices : List fake_device) (i_cdev : Nat) (f : file) : open_result :=
  { ret := 0, virtual_devices := virtual_devices, file := { f with private_data := some i_cdev } }

/-- The function `mycdrv_release`. -/
def mycdrv_release (virtual_devices : List fake_device) (f : file) : open_result :=
  { ret := 0, virtual_devices := virtual_devices, file := f }

/-! ## Sequences of calls on one device -/

/-- One call of a file operation with its arguments and with what the kernel
decides during it. -/
inductive call where
  | read (lbuf : Nat) (signal : Bool) (left : Nat)
  | write (buf : List Byte) (lbuf : Nat) (signal : Bool) (left : Nat)
  | lseek (offset orig : Int) (signal : Bool)
  | ioctl (cmd arg : Nat) (signal : Bool)
  deriving DecidableEq, Repr

/-- One call on a device and its position; the position cell is `file->f_pos`,
which the kernel hands to read and write as `ppos`. -/
def step (KMALLOC_MAX_SIZE : Nat) (access_ok : Nat → Nat → Bool)
    (s : fake_device × Int) : call → Option (fake_device × Int)
  | call.read lbuf signal left =>
    (mycdrv_read s.1 lbuf s.2 signal left).map fun r => (r.device, r.ppos)
  | call.write buf lbuf signal left =>
    (mycdrv_write s.1 buf lbuf s.2 signal left).map fun r => (r.device, r.ppos)
  | call.lseek offset orig signal =>
    (mycdrv_lseek KMALLOC_MAX_SIZE s.1 s.2 offset orig signal).map fun r => (r.device, r.f_pos)
  | call.ioctl cmd arg signal =>
    (mycdrv_ioctl access_ok s.1 s.2 cmd arg signal).map fun r => (r.device, r.f_pos)

/-- A finite sequence of calls, one after the other. -/
def run (KMALLOC_MAX_SIZE : Nat) (access_ok : Nat → Nat → Bool) :
    fake_device × Int → List call → Option (fake_device × Int)
  | s, [] => some s
  | s, c :: cs => (step KMALLOC_MAX_SIZE access_ok s c).bind fun s1 =>
      run KMALLOC_MAX_SIZE access_ok s1 cs

/-! ## Module initialisation -/

/-- An element of `virtual_devices` that `my_init` has worked on, with what the
kernel holds for it: whether the block of its ramdisk is still allocated and
whether its cdev is registered. -/
structure slot where
  device : fake_device
  ramdisk_live : Bool
  cdev_live : Bool
  deriving DecidableEq, Repr

/-- The body of the `for` loop of `my_init`, from index `i` for `todo` more
iterations; `cdev_add i` is the result of the call `cdev_add` for device `i`
and `capacity` the value of `ramdisk_size`. On a failed `cdev_add` only the
block of the current device is freed; `sema_init` is reached on success only,
so the count of a failed device is never set (0 here). -/
def my_init_loop (KMALLOC_MAX_SIZE capacity : Nat) (cdev_add : Nat → Int) :
    Nat → Nat → List slot → Option (Int × List slot)
  | 0, _, done => some (0, done)
  | todo + 1, i, done =>
    (kmalloc KMALLOC_MAX_SIZE capacity).bind fun block =>
      (memset block 0 0 capacity).bind fun ramdisk =>
        if cdev_add i < 0 then
          some (-1, done ++ [{ device := { sem := 0, ramdisk := ramdisk,
                                           device_num := i, size := capacity },
                               ramdisk_live := false, cdev_live := false }])
        else
          my_init_loop KMALLOC_MAX_SIZE capacity cdev_add todo (i + 1)
            (done ++ [{ device := { sem := 1, ramdisk := ramdisk,
                                    device_num := i, size := capacity },
                        ramdisk_live := true, cdev_live := true }])

/-- The function `my_init`: the return value and the elements of
`virtual_devices` worked on. `sizeof_fake_device` is the size of the record,
`alloc_chrdev_region` and `cdev_add` the results of these kernel calls. A NULL
array is written through by the first iteration. -/
def my_init (KMALLOC_MAX_SIZE sizeof_fake_device : Nat) (NUM_DEVICES : Int) (capacity : Nat)
    (alloc_chrdev_region : Int) (cdev_add : Nat → Int) : Option (Int × List slot) :=
  if alloc_chrdev_region < 0 then some (-1, [])
  else if 0 < NUM_DEVICES ∧
      (kmalloc KMALLOC_MAX_SIZE (to_size_t (NUM_DEVICES * sizeof_fake_device))).isNone then
    none
  else
    my_init_loop KMALLOC_MAX_SIZE capacity cdev_add NUM_DEVICES.toNat 0 []

/-- The element `my_init` builds for index `i` when everything succeeds. -/
def fresh_slot (capacity i : Nat) : slot :=
  { device := { sem := 1, ramdisk := List.replicate capacity 0, device_num := i,
                size := capacity },
    ramdisk_live := true, cdev_live := true }


/-! ## Arithmetic of the conversions -/

/-- Without a signal the guard is always obtained: the result is 0 and one
permit (if any) is taken. -/
theorem down_interruptible_false (s : Nat) : down_interruptible s false = (0, s - 1) := by
  unfold down_interruptible
  by_cases h : 0 < s
  · simp [h]
  · have : s = 0 := by omega
    simp [this]

/-- A value inside the range of `int` is not changed by the conversion. -/
theorem to_int_of_range (x : Int) (h1 : -2147483648 ≤ x) (h2 : x ≤ 2147483647) : to_int x = x := by
  unfold to_int; omega

/-- A natural number below 2^64 is not changed by the conversion to `size_t`. -/
theorem to_size_t_natCast (n : Nat) (h : n < 18446744073709551616) : to_size_t (n : Int) = n := by
  unfold to_size_t; omega

/-- A value inside the range of `loff_t` is not changed by the conversion. -/
theorem to_loff_t_of_range (x : Int) (h1 : -9223372036854775808 ≤ x) (h2 : x ≤ 9223372036854775807) :
    to_loff_t x = x := by
  unfold to_loff_t; omega

/-- The transfer count `bytes_to_do` of read and write, for a size that fits
`int` and a position inside the store, is `min lbuf (size - position)`. -/
theorem bytes_to_do_eq (size lbuf : Nat) (ppos : Int) (hs : size ≤ INT_MAX) (h0 : 0 ≤ ppos)
    (h1 : ppos ≤ size) :
    to_int (if to_size_t (to_int (to_size_t ((size : Int) - ppos))) > lbuf then (lbuf : Int)
      else to_size_t (to_int (to_size_t ((size : Int) - ppos))))
      = ((min lbuf (size - ppos.toNat) : Nat) : Int) := by
  unfold INT_MAX at hs
  have e1 : to_size_t ((size : Int) - ppos) = size - ppos.toNat := by unfold to_size_t; omega
  have e2 : to_int ((size - ppos.toNat : Nat) : Int) = ((size - ppos.toNat : Nat) : Int) :=
    to_int_of_range _ (by omega) (by omega)
  have e3 : to_size_t ((size - ppos.toNat : Nat) : Int) = size - ppos.toNat :=
    to_size_t_natCast _ (by omega)
  rw [e1, e2, e3]
  split_ifs with h
  · rw [to_int_of_range _ (by omega) (by omega)]; omega
  · rw [to_int_of_range _ (by omega) (by omega)]; omega

/-! ## Closed forms of the operations on valid devices -/

/-- A range that starts at a non-negative offset and ends inside the block is
in bounds. -/
theorem in_block_of_le (len : Nat) (off : Int) (n : Nat) (h0 : 0 ≤ off) (h1 : off + n ≤ len) :
    in_block len off n = true := by
  simp [in_block, h0, h1]

/-- Closed form of `mycdrv_read` on a valid device with the position inside
the store (guard acquired, copy complete). -/
theorem read_eq (device : fake_device) (lbuf : Nat) (ppos : Int) (hv : valid device)
    (h0 : 0 ≤ ppos) (h1 : ppos ≤ device.size) :
    mycdrv_read device lbuf ppos false 0 = some
      { ret := ((min lbuf (device.size - ppos.toNat) : Nat) : Int),
        buf := (device.ramdisk.drop ppos.toNat).take (min lbuf (device.size - ppos.toNat)),
        ppos := ppos + ((min lbuf (device.size - ppos.toNat) : Nat) : Int),
        device := { device with sem := up (device.sem - 1) } } := by
  obtain ⟨hlen, hsize⟩ := hv
  have hs := hsize
  unfold INT_MAX at hs
  unfold mycdrv_read
  rw [down_interruptible_false]
  simp only [ne_eq, not_true_eq_false, if_false]
  rw [bytes_to_do_eq _ _ _ hsize h0 h1]
  generalize hm : min lbuf (device.size - ppos.toNat) = m
  have hmle : (m : Int) ≤ device.size - ppos := by omega
  rw [to_size_t_natCast m (by omega)]
  have hin : in_block device.ramdisk.length ppos m = true :=
    in_block_of_le _ _ _ h0 (by rw [hlen]; omega)
  simp only [copy_to_user, peek, hin, if_true, Option.map_some', Nat.sub_zero, Nat.sub_self,
    Nat.cast_zero, sub_zero]
  rw [to_size_t_natCast m (by omega), to_int_of_range _ (by omega) (by omega),
    to_loff_t_of_range _ (by omega) (by omega)]
  simp [List.take_take]

/-- Closed form of `mycdrv_write` on a valid device with the position inside
the store (guard acquired, copy complete). -/
theorem write_eq (device : fake_device) (buf : List Byte) (ppos : Int) (hv : valid device)
    (h0 : 0 ≤ ppos) (h1 : ppos ≤ device.size) :
    mycdrv_write device buf buf.length ppos false 0 = some
      { ret := ((min buf.length (device.size - ppos.toNat) : Nat) : Int),
        ppos := ppos + ((min buf.length (device.size - ppos.toNat) : Nat) : Int),
        device := { device with
                    sem := up (device.sem - 1),
                    ramdisk := device.ramdisk.take ppos.toNat
                      ++ buf.take (min buf.length (device.size - ppos.toNat))
                      ++ device.ramdisk.drop
                          (ppos.toNat + min buf.length (device.size - ppos.toNat)) } } := by
  obtain ⟨hlen, hsize⟩ := hv
  have hs := hsize
  unfold INT_MAX at hs
  unfold mycdrv_write
  rw [down_interruptible_false]
  simp only [ne_eq, not_true_eq_false, if_false]
  rw [bytes_to_do_eq _ _ _ hsize h0 h1]
  generalize hm : min buf.length (device.size - ppos.toNat) = m
  have hmle : (m : Int) ≤ device.size - ppos := by omega
  have hmb : m ≤ buf.length := by omega
  rw [to_size_t_natCast m (by omega)]
  have hc : min (m - 0) buf.length = m := by omega
  have hlen2 : (List.take m buf).length = m := by simp [hmb]
  have hin : in_block device.ramdisk.length ppos m = true :=
    in_block_of_le _ _ _ h0 (by rw [hlen]; omega)
  simp only [copy_from_user, hc, Nat.sub_self, List.replicate_zero, List.append_nil, poke,
    hlen2, hin, if_true, Option.map_some', Nat.cast_zero, sub_zero]
  rw [to_size_t_natCast m (by omega), to_int_of_range _ (by omega) (by omega),
    to_loff_t_of_range _ (by omega) (by omega)]

/-- A seek from the start to a position inside the store moves the position
and nothing else. -/
theorem lseek_set_within (K : Nat) (device : fake_device) (f_pos p : Int) (hv : valid device)
    (h0 : 0 ≤ p) (h1 : p ≤ device.size) :
    mycdrv_lseek K device f_pos p SEEK_SET false = some
      { ret := p, f_pos := p, device := { device with sem := up (device.sem - 1) } } := by
  obtain ⟨hlen, hsize⟩ := hv
  have hs := hsize
  unfold INT_MAX at hs
  unfold mycdrv_lseek
  rw [down_interruptible_false]
  have ht : lseek_target device f_pos p SEEK_SET = some p := by simp [lseek_target]
  simp only [ne_eq, not_true_eq_false, if_false, ht]
  have hc : ¬ (to_int p > to_int device.size) := by
    rw [to_int_of_range p (by omega) (by omega), to_int_of_range _ (by omega) (by omega)]
    omega
  simp [hc, h0]

/-- Overwriting a range inside a block keeps its length. -/
theorem splice_length (R X : List Byte) (p : Nat) (h : p + X.length ≤ R.length) :
    (R.take p ++ X ++ R.drop (p + X.length)).length = R.length := by
  simp only [List.length_append, List.length_take, List.length_drop]
  omega

/-- The overwritten range of a block reads back as the bytes stored. -/
theorem splice_read (R X : List Byte) (p : Nat) (h : p + X.length ≤ R.length) :
    ((R.take p ++ X ++ R.drop (p + X.length)).drop p).take X.length = X := by
  have hp : (R.take p).length = p := by simp only [List.length_take]; omega
  rw [List.append_assoc, List.drop_append_eq_append_drop, hp, Nat.sub_self, List.drop_zero,
    List.drop_of_length_le (by omega), List.nil_append, List.take_left']
  rfl

/-- Filling a whole block with zero bytes. -/
theorem memset_whole (R : List Byte) (n : Nat) (h : R.length = n) :
    memset R 0 0 n = some (List.replicate n 0) := by
  have hin : in_block R.length 0 n = true := in_block_of_le _ _ _ (le_refl _) (by omega)
  simp only [memset, poke, List.length_replicate, hin, if_true]
  simp [h.symm]

/-- The block of a device created by `my_init` has 65536 bytes. -/
theorem fresh_length (i : Int) : (fresh_device i).ramdisk.length = 65536 := by
  show (List.replicate ramdisk_size (0 : Byte)).length = 65536
  rw [List.length_replicate]
  rfl

/-- Copying a block into the front of a larger fresh one leaves the fresh
tail. -/
theorem memcpy_fresh (R : List Byte) (t : Nat) (c : Byte) (hst : R.length ≤ t) :
    memcpy (List.replicate t c) R R.length = some (R ++ List.replicate (t - R.length) c) := by
  have h1 : in_block R.length 0 R.length = true := in_block_of_le _ _ _ (le_refl _) (by omega)
  have h2 : in_block t 0 R.length = true := in_block_of_le _ _ _ (le_refl _) (by omega)
  simp only [memcpy, h1, if_true, poke, List.take_length, List.length_replicate, h2]
  simp

/-- Filling the tail of a block. -/
theorem memset_tail (R T : List Byte) (c : Byte) :
    memset (R ++ T) R.length c T.length = some (R ++ List.replicate T.length c) := by
  have h : in_block (R ++ T).length (R.length : Int) (List.replicate T.length c).length = true :=
    in_block_of_le _ _ _ (by omega) (by simp)
  simp only [memset, poke, h, if_true]
  simp

/-- The `memcpy` and `memset` of the grow branch: the old bytes followed by
zero bytes. -/
theorem grow_block (R : List Byte) (t : Nat) (hst : R.length ≤ t) :
    ((memcpy (List.replicate t 90) R R.length).bind fun new_location =>
      memset new_location R.length 0 (t - R.length))
      = some (R ++ List.replicate (t - R.length) 0) := by
  rw [memcpy_fresh R t 90 hst, Option.some_bind]
  have := memset_tail R (List.replicate (t - R.length) 90) 0
  simpa using this

/-- Grow-on-seek inside the range of `int` and the limit of `kmalloc`: a
target `t` with `size < t ≤ KMALLOC_MAX_SIZE` makes the size `t`, keeps the
old bytes, zero-fills the new ones and moves the position to `t`. -/
theorem lseek_grow (K : Nat) (device : fake_device) (f_pos offset orig : Int) (t : Nat)
    (hv : valid device) (hK : K ≤ INT_MAX)
    (ht : lseek_target device f_pos offset orig = some (t : Int))
    (h1 : device.size < t) (h2 : t ≤ K) :
    mycdrv_lseek K device f_pos offset orig false = some
      { ret := t, f_pos := t,
        device := { device with
                    sem := up (device.sem - 1),
                    ramdisk := device.ramdisk ++ List.replicate (t - device.size) 0,
                    size := t } } := by
  obtain ⟨hlen, hsize⟩ := hv
  unfold INT_MAX at hsize hK
  unfold mycdrv_lseek
  rw [down_interruptible_false]
  simp only [ne_eq, not_true_eq_false, if_false, ht]
  have hc : to_int (t : Int) > to_int (device.size : Int) := by
    rw [to_int_of_range _ (by omega) (by omega), to_int_of_range _ (by omega) (by omega)]
    omega
  have hd : to_size_t ((to_size_t (t : Int) : Int) - (device.size : Int)) = t - device.size := by
    rw [to_size_t_natCast t (by omega)]
    unfold to_size_t; omega
  have hn : to_size_t ((device.size : Int) + ((t - device.size : Nat) : Int)) = t := by
    unfold to_size_t; omega
  have hk : kmalloc K t = some (List.replicate t 90) := by simp [kmalloc, h2]
  simp only [hc, if_true, hd, hn, hk, Option.some_bind]
  have hg := grow_block device.ramdisk t (by omega)
  rw [hlen] at hg
  rw [Option.bind_eq_some] at hg
  obtain ⟨nl, hnl, hms⟩ := hg
  simp only [hnl, Option.some_bind, hms, Option.map_some']

/-- A seek whose target is at most the size and at least `-2^31` changes only
the position, to `max target 0`. -/
theorem lseek_stay (K : Nat) (device : fake_device) (f_pos offset orig x : Int)
    (hv : valid device) (ht : lseek_target device f_pos offset orig = some x)
    (hlo : -2147483648 ≤ x) (hx : x ≤ device.size) :
    mycdrv_lseek K device f_pos offset orig false = some
      { ret := max x 0, f_pos := max x 0,
        device := { device with sem := up (device.sem - 1) } } := by
  obtain ⟨hlen, hsize⟩ := hv
  unfold INT_MAX at hsize
  unfold mycdrv_lseek
  rw [down_interruptible_false]
  simp only [ne_eq, not_true_eq_false, if_false, ht]
  have hc : ¬ (to_int x > to_int (device.size : Int)) := by
    rw [to_int_of_range _ (by omega) (by omega), to_int_of_range _ (by omega) (by omega)]
    omega
  have hmax : (if x ≥ 0 then x else 0) = max x 0 := by
    split_ifs <;> omega
  simp only [hc, if_false, hmax]

/-! ## The invariant is kept by every operation -/

/-- A store into a block keeps the length of the block. -/
theorem poke_length (block src : List Byte) (off : Int) (b : List Byte)
    (h : poke block off src = some b) : b.length = block.length := by
  unfold poke at h
  split_ifs at h with hin
  simp only [Option.some.injEq] at h
  subst h
  simp only [in_block, Bool.or_eq_true, beq_iff_eq, Bool.and_eq_true, decide_eq_true_eq] at hin
  simp only [List.length_append, List.length_take, List.length_drop]
  rcases hin with h0 | ⟨h1, h2⟩
  · omega
  · omega

/-- The device created by `my_init` is valid. -/
theorem valid_fresh (i : Int) : valid (fresh_device i) := by
  refine ⟨?_, ?_⟩
  · show (List.replicate ramdisk_size (0 : Byte)).length = ramdisk_size
    exact List.length_replicate _ _
  · show ramdisk_size ≤ INT_MAX
    decide

/-- Every read that returns leaves a valid device valid. -/
theorem read_valid (device : fake_device) (lbuf : Nat) (ppos : Int) (signal : Bool) (left : Nat)
    (r : read_result) (hv : valid device)
    (h : mycdrv_read device lbuf ppos signal left = some r) : valid r.device := by
  unfold mycdrv_read at h
  split_ifs at h
  · simp only [Option.some.injEq] at h
    subst h; exact hv
  · simp only [Option.map_eq_some'] at h
    obtain ⟨out, -, rfl⟩ := h
    exact hv

/-- Every write that returns leaves a valid device valid. -/
theorem write_valid (device : fake_device) (buf : List Byte) (lbuf : Nat) (ppos : Int)
    (signal : Bool) (left : Nat) (w : write_result) (hv : valid device)
    (h : mycdrv_write device buf lbuf ppos signal left = some w) : valid w.device := by
  unfold mycdrv_write at h
  split_ifs at h
  · simp only [Option.some.injEq] at h
    subst h; exact hv
  · simp only [Option.map_eq_some'] at h
    obtain ⟨out, hout, rfl⟩ := h
    simp only [copy_from_user, Option.map_eq_some'] at hout
    obtain ⟨b, hb, rfl⟩ := hout
    exact ⟨(poke_length _ _ _ _ hb).trans hv.1, hv.2⟩

/-- Every ioctl that returns leaves a valid device valid. -/
theorem ioctl_valid (access_ok : Nat → Nat → Bool) (device : fake_device) (f_pos : Int)
    (cmd arg : Nat) (signal : Bool) (r : seek_result) (hv : valid device)
    (h : mycdrv_ioctl access_ok device f_pos cmd arg signal = some r) : valid r.device := by
  unfold mycdrv_ioctl at h
  dsimp only at h
  split_ifs at h
  all_goals first
    | (simp only [Option.some.injEq] at h; subst h; exact hv)
    | (simp only [Option.map_eq_some'] at h
       obtain ⟨b, hb, rfl⟩ := h
       exact ⟨(poke_length _ _ _ _ hb).trans hv.1, hv.2⟩)

/-- Every seek that returns leaves a valid device valid, when `kmalloc` serves
no block above `INT_MAX` bytes. -/
theorem lseek_valid (K : Nat) (device : fake_device) (f_pos offset orig : Int) (signal : Bool)
    (r : seek_result) (hK : K ≤ INT_MAX) (hv : valid device)
    (h : mycdrv_lseek K device f_pos offset orig signal = some r) : valid r.device := by
  unfold mycdrv_lseek at h
  split_ifs at h
  · simp only [Option.some.injEq] at h
    subst h; exact hv
  · cases ht : lseek_target device f_pos offset orig with
    | none =>
      simp only [ht, Option.some.injEq] at h
      subst h; exact hv
    | some testpos =>
      simp only [ht] at h
      split_ifs at h
      · simp only [Option.bind_eq_some, Option.map_eq_some'] at h
        obtain ⟨blk, hblk, nl, hnl, rd, hrd, rfl⟩ := h
        unfold kmalloc at hblk
        split_ifs at hblk with hle
        simp only [Option.some.injEq] at hblk
        have h1 : nl.length = blk.length := by
          unfold memcpy at hnl
          split_ifs at hnl
          exact poke_length _ _ _ _ hnl
        have h2 : rd.length = nl.length := poke_length _ _ _ _ hrd
        subst hblk
        rw [List.length_replicate] at h1
        exact ⟨by rw [h2, h1], le_trans hle hK⟩
      all_goals
        simp only [Option.some.injEq] at h
        subst h; exact hv

/-! ## The claims -/

/-- C1. Write-then-read round trip: on a valid device, for a position `p ≥ 0`
and bytes `X` with `p + length X ≤ size`, seeking to `p` from the start,
writing `X`, seeking back to `p` and reading `length X` bytes all return, and
the read delivers exactly `X` with count `length X` (guard acquired, user
copies complete). -/
theorem write_then_read_roundtrip (K : Nat) (device : fake_device) (f_pos p : Int)
    (X : List Byte) (hv : valid device) (hp : 0 ≤ p) (hX : p + X.length ≤ device.size) :
    ∃ s1 w s2 r,
      mycdrv_lseek K device f_pos p SEEK_SET false = some s1 ∧
      mycdrv_write s1.device X X.length s1.f_pos false 0 = some w ∧
      mycdrv_lseek K w.device w.ppos p SEEK_SET false = some s2 ∧
      mycdrv_read s2.device X.length s2.f_pos false 0 = some r ∧
      r.buf = X ∧ r.ret = X.length := by
  have hps : p ≤ device.size := by omega
  have hm : min X.length (device.size - p.toNat) = X.length := by omega
  obtain ⟨hlen, hsize⟩ := hv
  have hv1 : valid { device with sem := up (device.sem - 1) } := ⟨hlen, hsize⟩
  have hsp : p.toNat + X.length ≤ device.ramdisk.length := by omega
  have hw := write_eq { device with sem := up (device.sem - 1) } X p hv1 hp hps
  simp only [hm, List.take_length] at hw
  have hv2 : valid { device with
      sem := up (up (device.sem - 1) - 1),
      ramdisk := device.ramdisk.take p.toNat ++ X ++ device.ramdisk.drop (p.toNat + X.length) } :=
    ⟨by rw [splice_length _ _ _ hsp]; exact hlen, hsize⟩
  refine ⟨_, _, _, _, lseek_set_within K device f_pos p ⟨hlen, hsize⟩ hp hps, hw,
    lseek_set_within K _ _ p hv2 hp hps, read_eq _ X.length p hv2 hp hps, ?_, ?_⟩
  · simp only [hm]
    exact splice_read _ _ _ hsp
  · simp only [hm]

/-- Witness of C1 on the four-byte device: two bytes written at position 1
are read back. -/
theorem write_then_read_roundtrip_witness :
    valid tiny_device ∧ (0 : Int) ≤ 1 ∧
    ∃ s1 w s2 r,
      mycdrv_lseek 4194304 tiny_device 0 1 SEEK_SET false = some s1 ∧
      mycdrv_write s1.device [7, 8] 2 s1.f_pos false 0 = some w ∧
      mycdrv_lseek 4194304 w.device w.ppos 1 SEEK_SET false = some s2 ∧
      mycdrv_read s2.device 2 s2.f_pos false 0 = some r ∧
      r.buf = [7, 8] ∧ r.ret = 2 :=
  ⟨by decide, by decide,
    write_then_read_roundtrip 4194304 tiny_device 0 1 [7, 8] (by decide) (by decide) (by decide)⟩

/-- C2 at a failing input. On the device `my_init` creates (size 65536), the
seek `SEEK_END` with offset `k = 2^32` has target `65536 + 2^32`, yet the
store is not grown: the size stays 65536 and the position is set 4 GiB past
the end. Both sides of `(int)testpos > (int)device->size` are 65536. -/
theorem seek_end_4GiB_does_not_grow (K : Nat) :
    mycdrv_lseek K (fresh_device 0) 0 4294967296 SEEK_END false
      = some { ret := 4295032832, f_pos := 4295032832, device := fresh_device 0 } := by
  rfl

/-- C3 at a failing input. On the device `my_init` creates (size 65536), the
seek `SEEK_SET` with offset `2^32 + 1` has a target above the size, yet the
size stays 65536 while position and return value become `2^32 + 1`: the
comparison sees `(int)testpos = 1`. -/
theorem seek_set_above_int_does_not_grow (K : Nat) :
    mycdrv_lseek K (fresh_device 0) 0 4294967297 SEEK_SET false
      = some { ret := 4294967297, f_pos := 4294967297, device := fresh_device 0 } := by
  rfl

/-- C4. Read postcondition: on a valid device with `0 ≤ position ≤ size`, for
every `lbuf`, read returns (guard acquired, user copy complete) the count
`n = min lbuf (size - position)`, delivers exactly the bytes
`ramdisk[position .. position + n)`, moves the position to `position + n`,
and leaves the bytes and the size of the store as they were. -/
theorem read_postcondition (device : fake_device) (lbuf : Nat) (ppos : Int)
    (hv : valid device) (h0 : 0 ≤ ppos) (h1 : ppos ≤ device.size) :
    ∃ r, mycdrv_read device lbuf ppos false 0 = some r ∧
      r.ret = min (lbuf : Int) (device.size - ppos) ∧
      r.buf = (device.ramdisk.drop ppos.toNat).take r.ret.toNat ∧
      r.ppos = ppos + r.ret ∧
      r.device.ramdisk = device.ramdisk ∧ r.device.size = device.size := by
  refine ⟨_, read_eq device lbuf ppos hv h0 h1, ?_, ?_, rfl, rfl, rfl⟩
  · show ((min lbuf (device.size - ppos.toNat) : Nat) : Int) = _
    omega
  · show _ = List.take (Int.toNat ((min lbuf (device.size - ppos.toNat) : Nat) : Int)) _
    rw [Int.toNat_ofNat]

/-- Witness of C4 on the four-byte device: ten bytes asked at position 1. -/
theorem read_postcondition_witness :
    valid tiny_device ∧ (0 : Int) ≤ 1 ∧ (1 : Int) ≤ tiny_device.size ∧
    ∃ r, mycdrv_read tiny_device 10 1 false 0 = some r ∧
      r.ret = min ((10 : Nat) : Int) (tiny_device.size - 1) ∧
      r.buf = (tiny_device.ramdisk.drop (1 : Int).toNat).take r.ret.toNat ∧
      r.ppos = 1 + r.ret ∧
      r.device.ramdisk = tiny_device.ramdisk ∧ r.device.size = tiny_device.size :=
  ⟨by decide, by decide, by decide,
    read_postcondition tiny_device 10 1 (by decide) (by decide) (by decide)⟩

/-- C5. Write never grows: on a valid device with `0 ≤ position ≤ size`, for
every input `buf`, write returns (guard acquired, user copy complete)
`n = min (length buf) (size - position)`, moves the position by exactly `n`,
and leaves the size (and the length of the block) unchanged; when
`position + length buf > size` the count is strictly below `length buf`. -/
theorem write_never_grows (device : fake_device) (buf : List Byte) (ppos : Int)
    (hv : valid device) (h0 : 0 ≤ ppos) (h1 : ppos ≤ device.size) :
    ∃ w, mycdrv_write device buf buf.length ppos false 0 = some w ∧
      w.ret = min (buf.length : Int) (device.size - ppos) ∧
      w.ppos = ppos + w.ret ∧
      w.device.size = device.size ∧
      w.device.ramdisk.length = device.ramdisk.length ∧
      (ppos + buf.length > device.size → w.ret < buf.length) := by
  have hw := write_eq device buf ppos hv h0 h1
  have hret : ((min buf.length (device.size - ppos.toNat) : Nat) : Int)
      = min (buf.length : Int) (device.size - ppos) := by omega
  refine ⟨_, hw, hret, rfl, rfl, ?_, ?_⟩
  · exact (write_valid _ _ _ _ _ _ _ hv hw).1.trans hv.1.symm
  · intro hgt
    show ((min buf.length (device.size - ppos.toNat) : Nat) : Int) < _
    omega

/-- Witness of C5 on the four-byte device: two bytes offered at position 3. -/
theorem write_never_grows_witness :
    valid tiny_device ∧ (0 : Int) ≤ 3 ∧ (3 : Int) ≤ tiny_device.size ∧
    ∃ w, mycdrv_write tiny_device [7, 8] 2 3 false 0 = some w ∧
      w.ret = min 2 (tiny_device.size - 3) ∧
      w.ppos = 3 + w.ret ∧
      w.device.size = tiny_device.size ∧
      w.device.ramdisk.length = tiny_device.ramdisk.length ∧
      ((3 : Int) + 2 > tiny_device.size → w.ret < 2) :=
  ⟨by decide, by decide, by decide,
    write_never_grows tiny_device [7, 8] 3 (by decide) (by decide) (by decide)⟩

/-- C6 at a failing input. On the device `my_init` creates (size 65536), a
read and a write of one byte at position 65537, one past the end, do not
return 0: `maxbytes` is -1, the unsigned comparison `maxbytes > lbuf` holds,
`bytes_to_do` is 1 and the copy touches the byte at offset 65537, outside the
65536-byte block. -/
theorem read_write_past_end_leave_block :
    mycdrv_read (fresh_device 0) 1 65537 false 0 = none ∧
    mycdrv_write (fresh_device 0) [7] 1 65537 false 0 = none := by
  have hb : to_int (if to_size_t (to_int (to_size_t (((fresh_device 0).size : Int) - 65537))) > 1
      then ((1 : Nat) : Int)
      else to_size_t (to_int (to_size_t (((fresh_device 0).size : Int) - 65537)))) = 1 := by
    decide
  have hn : to_size_t 1 = 1 := by decide
  have hin : in_block (fresh_device 0).ramdisk.length 65537 1 = false := by
    rw [fresh_length]; decide
  constructor
  · unfold mycdrv_read
    rw [down_interruptible_false]
    simp only [ne_eq, not_true_eq_false, if_false, hb, hn]
    simp [copy_to_user, peek, hin]
  · unfold mycdrv_write
    rw [down_interruptible_false]
    simp only [ne_eq, not_true_eq_false, if_false, hb, hn]
    simp [copy_from_user, poke, hin]

/-- C7 at a failing input. On the device `my_init` creates (size 65536), the
seek `SEEK_SET` with the negative offset `-2^32 + 65537` is not clamped to 0:
`(int)testpos` is 65537, above the size, so the grow branch runs, asks
`kmalloc` for `2^64 - 2^32 + 65537` bytes, gets NULL and copies through it. -/
theorem seek_set_negative_not_clamped (K : Nat) (hK : K ≤ INT_MAX) :
    mycdrv_lseek K (fresh_device 0) 0 (-4294901759) SEEK_SET false = none := by
  have hk : ¬ (18446744069414649857 ≤ K) := by unfold INT_MAX at hK; omega
  have hnull : kmalloc K 18446744069414649857 = none := by simp [kmalloc, hk]
  unfold mycdrv_lseek
  rw [down_interruptible_false]
  have ht : lseek_target (fresh_device 0) 0 (-4294901759) SEEK_SET = some (-4294901759) := by
    decide
  simp only [ne_eq, not_true_eq_false, if_false, ht]
  have hc : to_int (-4294901759) > to_int ((fresh_device 0).size : Int) := by decide
  have hn : to_size_t (((fresh_device 0).size : Int) +
      (to_size_t ((to_size_t (-4294901759) : Int) - ((fresh_device 0).size : Int)) : Nat))
      = 18446744069414649857 := by decide
  simp only [hc, if_true, hn, hnull, Option.none_bind]

/-- Witness of the evaluation for C7 with a 4 MiB `KMALLOC_MAX_SIZE`. -/
theorem seek_set_negative_not_clamped_witness :
    4194304 ≤ INT_MAX ∧
    mycdrv_lseek 4194304 (fresh_device 0) 0 (-4294901759) SEEK_SET false = none :=
  ⟨by decide, seek_set_negative_not_clamped 4194304 (by decide)⟩

/-- C8. Control-command clear: on every device whose block has `size` bytes,
whatever its contents and position, `ASP_CLEAR_BUFF` returns 0 (guard
acquired), after which every byte in `[0, size)` is 0, the position is 0 and
the size is unchanged. -/
theorem ioctl_clear (access_ok : Nat → Nat → Bool) (device : fake_device) (f_pos : Int)
    (arg : Nat) (hlen : device.ramdisk.length = device.size) :
    ∃ r, mycdrv_ioctl access_ok device f_pos ASP_CLEAR_BUFF arg false = some r ∧
      r.ret = 0 ∧
      r.device.ramdisk = List.replicate device.size 0 ∧
      (∀ i, i < r.device.size → r.device.ramdisk[i]? = some 0) ∧
      r.f_pos = 0 ∧ r.device.size = device.size := by
  have ht : IOC_TYPE ASP_CLEAR_BUFF = CDRV_IOC_MAGIC := by decide
  have hr : IOC_DIR ASP_CLEAR_BUFF &&& IOC_READ = 0 := by decide
  have hw : IOC_DIR ASP_CLEAR_BUFF &&& IOC_WRITE = 0 := by decide
  refine ⟨{ ret := 0, f_pos := 0,
            device := { device with sem := up (device.sem - 1),
                                    ramdisk := List.replicate device.size 0 } }, ?_, rfl, rfl,
    ?_, rfl, rfl⟩
  · unfold mycdrv_ioctl
    rw [down_interruptible_false, memset_whole _ _ hlen]
    simp [ht, hr, hw]
  · intro i hi
    simp only at hi
    simp [List.getElem?_replicate, hi]

/-- Witness of C8 on the four-byte device at position 3. -/
theorem ioctl_clear_witness :
    tiny_device.ramdisk.length = tiny_device.size ∧
    ∃ r, mycdrv_ioctl (fun _ _ => true) tiny_device 3 ASP_CLEAR_BUFF 0 false = some r ∧
      r.ret = 0 ∧
      r.device.ramdisk = List.replicate tiny_device.size 0 ∧
      (∀ i, i < r.device.size → r.device.ramdisk[i]? = some 0) ∧
      r.f_pos = 0 ∧ r.device.size = tiny_device.size :=
  ⟨by decide, ioctl_clear (fun _ _ => true) tiny_device 3 0 (by decide)⟩

/-- C9. Unknown commands are rejected atomically: for every command other
than `ASP_CLEAR_BUFF` and every `arg`, the ioctl returns a negative value
(guard acquired) and leaves the bytes, the size and the position unchanged. -/
theorem ioctl_unknown_rejected (access_ok : Nat → Nat → Bool) (device : fake_device)
    (f_pos : Int) (cmd arg : Nat) (h : cmd ≠ ASP_CLEAR_BUFF) :
    ∃ r, mycdrv_ioctl access_ok device f_pos cmd arg false = some r ∧
      r.ret < 0 ∧
      r.device.ramdisk = device.ramdisk ∧ r.device.size = device.size ∧ r.f_pos = f_pos := by
  unfold mycdrv_ioctl
  rw [down_interruptible_false]
  simp only [ne_eq, not_true_eq_false, if_false, h]
  split_ifs <;> exact ⟨_, rfl, by simp [ENOTTY, EFAULT, EINVAL], rfl, rfl, rfl⟩

/-- Witness of C9: command number 2 of the driver's magic. -/
theorem ioctl_unknown_rejected_witness :
    io_cmd CDRV_IOC_MAGIC 2 ≠ ASP_CLEAR_BUFF ∧
    ∃ r, mycdrv_ioctl (fun _ _ => true) tiny_device 3 (io_cmd CDRV_IOC_MAGIC 2) 0 false = some r ∧
      r.ret < 0 ∧
      r.device.ramdisk = tiny_device.ramdisk ∧ r.device.size = tiny_device.size ∧ r.f_pos = 3 :=
  ⟨by decide,
    ioctl_unknown_rejected (fun _ _ => true) tiny_device 3 (io_cmd CDRV_IOC_MAGIC 2) 0 (by decide)⟩

/-- C10. Invalid seek origin: for every device, offset and origin other than
`SEEK_SET`, `SEEK_CUR` and `SEEK_END`, the seek returns `-EINVAL` (guard
acquired) and leaves the position, the size and the bytes unchanged. -/
theorem lseek_invalid_origin (K : Nat) (device : fake_device) (f_pos offset orig : Int)
    (h0 : orig ≠ SEEK_SET) (h1 : orig ≠ SEEK_CUR) (h2 : orig ≠ SEEK_END) :
    ∃ r, mycdrv_lseek K device f_pos offset orig false = some r ∧
      r.ret = -EINVAL ∧
      r.f_pos = f_pos ∧ r.device.size = device.size ∧ r.device.ramdisk = device.ramdisk := by
  have ht : lseek_target device f_pos offset orig = none := by simp [lseek_target, h0, h1, h2]
  unfold mycdrv_lseek
  rw [down_interruptible_false]
  simp only [ne_eq, not_true_eq_false, if_false, ht]
  exact ⟨_, rfl, rfl, rfl, rfl, rfl⟩

/-- Witness of C10: origin 3 with a large offset. -/
theorem lseek_invalid_origin_witness :
    (3 : Int) ≠ SEEK_SET ∧ (3 : Int) ≠ SEEK_CUR ∧ (3 : Int) ≠ SEEK_END ∧
    ∃ r, mycdrv_lseek 4194304 tiny_device 2 4294967297 3 false = some r ∧
      r.ret = -EINVAL ∧
      r.f_pos = 2 ∧ r.device.size = tiny_device.size ∧
      r.device.ramdisk = tiny_device.ramdisk :=
  ⟨by decide, by decide, by decide,
    lseek_invalid_origin 4194304 tiny_device 2 4294967297 3 (by decide) (by decide) (by decide)⟩

/-! ## The guard -/

/-- With a free permit the guard is obtained whatever the signal. -/
theorem down_interruptible_free (s : Nat) (signal : Bool) (h : 0 < s) :
    down_interruptible s signal = (0, s - 1) := by
  simp [down_interruptible, h]

/-- The count of the guard after a read that returns. -/
theorem read_sem (device : fake_device) (lbuf : Nat) (ppos : Int) (signal : Bool) (left : Nat)
    (r : read_result) (h : mycdrv_read device lbuf ppos signal left = some r) :
    r.device.sem = if (down_interruptible device.sem signal).1 ≠ 0 then device.sem
      else up (down_interruptible device.sem signal).2 := by
  unfold mycdrv_read at h
  split_ifs at h ⊢
  · simp only [Option.some.injEq] at h
    subst h; rfl
  · simp only [Option.map_eq_some'] at h
    obtain ⟨out, -, rfl⟩ := h
    rfl

/-- The count of the guard after a write that returns. -/
theorem write_sem (device : fake_device) (buf : List Byte) (lbuf : Nat) (ppos : Int)
    (signal : Bool) (left : Nat) (w : write_result)
    (h : mycdrv_write device buf lbuf ppos signal left = some w) :
    w.device.sem = if (down_interruptible device.sem signal).1 ≠ 0 then device.sem
      else up (down_interruptible device.sem signal).2 := by
  unfold mycdrv_write at h
  split_ifs at h ⊢
  · simp only [Option.some.injEq] at h
    subst h; rfl
  · simp only [Option.map_eq_some'] at h
    obtain ⟨out, -, rfl⟩ := h
    rfl

/-- The count of the guard after an ioctl that returns. -/
theorem ioctl_sem (access_ok : Nat → Nat → Bool) (device : fake_device) (f_pos : Int)
    (cmd arg : Nat) (signal : Bool) (r : seek_result)
    (h : mycdrv_ioctl access_ok device f_pos cmd arg signal = some r) :
    r.device.sem = if (down_interruptible device.sem signal).1 ≠ 0 then device.sem
      else up (down_interruptible device.sem signal).2 := by
  unfold mycdrv_ioctl at h
  dsimp only at h
  split_ifs at h ⊢
  all_goals first
    | (simp only [Option.some.injEq] at h; subst h; rfl)
    | (simp only [Option.map_eq_some'] at h
       obtain ⟨b, -, rfl⟩ := h
       rfl)

/-- The count of the guard after a seek that returns. -/
theorem lseek_sem (K : Nat) (device : fake_device) (f_pos offset orig : Int) (signal : Bool)
    (r : seek_result) (h : mycdrv_lseek K device f_pos offset orig signal = some r) :
    r.device.sem = if (down_interruptible device.sem signal).1 ≠ 0 then device.sem
      else up (down_interruptible device.sem signal).2 := by
  unfold mycdrv_lseek at h
  split_ifs at h ⊢
  · simp only [Option.some.injEq] at h
    subst h; rfl
  · cases ht : lseek_target device f_pos offset orig with
    | none =>
      simp only [ht, Option.some.injEq] at h
      subst h; rfl
    | some testpos =>
      simp only [ht] at h
      split_ifs at h
      · simp only [Option.bind_eq_some, Option.map_eq_some'] at h
        obtain ⟨blk, -, nl, -, rd, -, rfl⟩ := h
        rfl
      all_goals
        simp only [Option.some.injEq] at h
        subst h; rfl

/-! ## The size never decreases -/

/-- A `memcpy` that stays inside both blocks copies no more than the
destination holds. -/
theorem memcpy_some_le (dst src b : List Byte) (n : Nat) (h : memcpy dst src n = some b) :
    n ≤ dst.length := by
  unfold memcpy at h
  split_ifs at h with h1
  unfold poke at h
  split_ifs at h with h2
  simp only [in_block, Bool.or_eq_true, beq_iff_eq, Bool.and_eq_true, decide_eq_true_eq,
    List.length_take] at h1 h2
  omega

/-- The size after a seek that returns is at least the size before. -/
theorem lseek_size (K : Nat) (device : fake_device) (f_pos offset orig : Int) (signal : Bool)
    (r : seek_result) (h : mycdrv_lseek K device f_pos offset orig signal = some r) :
    device.size ≤ r.device.size := by
  unfold mycdrv_lseek at h
  split_ifs at h
  · simp only [Option.some.injEq] at h
    subst h; exact le_refl _
  · cases ht : lseek_target device f_pos offset orig with
    | none =>
      simp only [ht, Option.some.injEq] at h
      subst h; exact le_refl _
    | some testpos =>
      simp only [ht] at h
      split_ifs at h
      · simp only [Option.bind_eq_some, Option.map_eq_some'] at h
        obtain ⟨blk, hblk, nl, hnl, rd, -, rfl⟩ := h
        unfold kmalloc at hblk
        split_ifs at hblk
        simp only [Option.some.injEq] at hblk
        subst hblk
        have := memcpy_some_le _ _ _ _ hnl
        rw [List.length_replicate] at this
        exact this
      all_goals
        simp only [Option.some.injEq] at h
        subst h; exact le_refl _

/-- The size after a read that returns is the size before. -/
theorem read_size (device : fake_device) (lbuf : Nat) (ppos : Int) (signal : Bool) (left : Nat)
    (r : read_result) (h : mycdrv_read device lbuf ppos signal left = some r) :
    r.device.size = device.size := by
  unfold mycdrv_read at h
  split_ifs at h
  · simp only [Option.some.injEq] at h
    subst h; rfl
  · simp only [Option.map_eq_some'] at h
    obtain ⟨out, -, rfl⟩ := h
    rfl

/-- The size after a write that returns is the size before. -/
theorem write_size (device : fake_device) (buf : List Byte) (lbuf : Nat) (ppos : Int)
    (signal : Bool) (left : Nat) (w : write_result)
    (h : mycdrv_write device buf lbuf ppos signal left = some w) :
    w.device.size = device.size := by
  unfold mycdrv_write at h
  split_ifs at h
  · simp only [Option.some.injEq] at h
    subst h; rfl
  · simp only [Option.map_eq_some'] at h
    obtain ⟨out, -, rfl⟩ := h
    rfl

/-- The size after an ioctl that returns is the size before. -/
theorem ioctl_size (access_ok : Nat → Nat → Bool) (device : fake_device) (f_pos : Int)
    (cmd arg : Nat) (signal : Bool) (r : seek_result)
    (h : mycdrv_ioctl access_ok device f_pos cmd arg signal = some r) :
    r.device.size = device.size := by
  unfold mycdrv_ioctl at h
  dsimp only at h
  split_ifs at h
  all_goals first
    | (simp only [Option.some.injEq] at h; subst h; rfl)
    | (simp only [Option.map_eq_some'] at h
       obtain ⟨b, -, rfl⟩ := h
       rfl)

/-! ## Module initialisation -/

/-- A block `kmalloc` serves, zeroed by `memset` over its whole length. -/
theorem alloc_zeroed {α : Type} (K c : Nat) (hc : c ≤ K) (F : List Byte → Option α) :
    ((kmalloc K c).bind fun block => (memset block 0 0 c).bind F)
      = F (List.replicate c 0) := by
  have hk : kmalloc K c = some (List.replicate c 90) := by simp [kmalloc, hc]
  rw [hk, Option.some_bind, memset_whole _ _ (List.length_replicate _ _), Option.some_bind]

/-- A loop of `my_init` that ends with 0 has built one fresh element for every
index it went through. -/
theorem my_init_loop_ok (K c : Nat) (cdev_add : Nat → Int) (todo : Nat) :
    ∀ (i : Nat) (done slots : List slot),
      my_init_loop K c cdev_add todo i done = some (0, slots) →
      slots = done ++ (List.range' i todo).map (fresh_slot c) := by
  induction todo with
  | zero =>
    intro i done slots h
    simp only [my_init_loop, Option.some.injEq, Prod.mk.injEq, true_and] at h
    simp [h]
  | succ todo ih =>
    intro i done slots h
    unfold my_init_loop at h
    by_cases hc : c ≤ K
    · rw [alloc_zeroed K c hc] at h
      split_ifs at h with hadd
      · simp only [Option.some.injEq, Prod.mk.injEq] at h
        omega
      · have := ih (i + 1) _ slots h
        rw [this, List.range'_succ, List.map_cons, List.append_assoc]
        rfl
    · have hk : kmalloc K c = none := by simp [kmalloc, hc]
      rw [hk, Option.none_bind] at h
      exact absurd h (by simp)

/-- The conversion to `size_t` does not enlarge a natural number. -/
theorem to_size_t_le (m : Nat) : to_size_t (m : Int) ≤ m := by
  unfold to_size_t
  omega

/-- With every kernel call succeeding and both requests within the limit of
`kmalloc`, `my_init` returns 0 with one fresh element per device. -/
theorem my_init_succeeds (K S n c : Nat) (chr : Int) (cdev_add : Nat → Int)
    (hchr : 0 ≤ chr) (hadd : ∀ i, 0 ≤ cdev_add i) (hS : n * S ≤ K) (hc : c ≤ K) :
    my_init K S (n : Int) c chr cdev_add = some (0, (List.range' 0 n).map (fresh_slot c)) := by
  have hloop : ∀ (todo i : Nat) (done : List slot),
      my_init_loop K c cdev_add todo i done
        = some (0, done ++ (List.range' i todo).map (fresh_slot c)) := by
    intro todo
    induction todo with
    | zero => intro i done; simp [my_init_loop]
    | succ todo ih =>
      intro i done
      unfold my_init_loop
      rw [alloc_zeroed K c hc, if_neg (not_lt.mpr (hadd i)), ih, List.range'_succ,
        List.map_cons, List.append_assoc]
      rfl
  have harr : (kmalloc K (to_size_t ((n : Int) * (S : Int)))).isNone = false := by
    have : to_size_t ((n : Int) * (S : Int)) ≤ K := by
      have h1 : ((n : Int) * (S : Int)) = ((n * S : Nat) : Int) := by push_cast; rfl
      rw [h1]
      exact le_trans (to_size_t_le _) hS
    simp [kmalloc, this]
  unfold my_init
  rw [if_neg (not_lt.mpr hchr), harr]
  simp only [Bool.false_eq_true, and_false, if_false, Int.toNat_ofNat]
  rw [hloop]
  rfl

/-- The run of `my_init` for three devices when `cdev_add` fails for device 1:
the result is -1, device 0 keeps its block, the block of device 1 is freed. -/
theorem my_init_fails_at_1 (K S c : Nat) (hS : 3 * S ≤ K) (hc : c ≤ K) :
    my_init K S 3 c 0 (fun i => if i = 1 then -1 else 0)
      = some (-1,
          [ { device := { sem := 1, ramdisk := List.replicate c 0,
                          device_num := 0, size := c },
              ramdisk_live := true, cdev_live := true },
            { device := { sem := 0, ramdisk := List.replicate c 0,
                          device_num := 1, size := c },
              ramdisk_live := false, cdev_live := false } ]) := by
  have harr : (kmalloc K (to_size_t ((3 : Int) * (S : Int)))).isNone = false := by
    have h1 : ((3 : Int) * (S : Int)) = ((3 * S : Nat) : Int) := by push_cast; rfl
    have : to_size_t ((3 : Int) * (S : Int)) ≤ K := by
      rw [h1]
      exact le_trans (to_size_t_le _) hS
    simp [kmalloc, this]
  unfold my_init
  rw [if_neg (by decide), harr]
  simp only [Bool.false_eq_true, and_false, if_false]
  have h3 : (3 : Int).toNat = 2 + 1 := by decide
  rw [h3]
  unfold my_init_loop
  rw [alloc_zeroed K _ hc, if_neg (by decide)]
  unfold my_init_loop
  rw [alloc_zeroed K _ hc, if_pos (by decide)]
  rfl

/-! ## Bytes of a block after a store -/

/-- Inside the stored range a block holds the bytes stored. -/
theorem splice_get_inside (R X : List Byte) (p i : Nat) (h : p + X.length ≤ R.length)
    (hi : i < X.length) :
    (R.take p ++ X ++ R.drop (p + X.length))[p + i]? = X[i]? := by
  have hp : (R.take p).length = p := by simp only [List.length_take]; omega
  rw [List.append_assoc, List.getElem?_append_right (by omega), hp,
    List.getElem?_append_left (by omega)]
  congr 1
  omega

/-- Outside the stored range a block holds the bytes it held before. -/
theorem splice_get_outside (R X : List Byte) (p j : Nat) (h : p + X.length ≤ R.length)
    (hj : j < p ∨ p + X.length ≤ j) :
    (R.take p ++ X ++ R.drop (p + X.length))[j]? = R[j]? := by
  have hp : (R.take p).length = p := by simp only [List.length_take]; omega
  rcases hj with hj | hj
  · rw [List.append_assoc, List.getElem?_append_left (by omega), List.getElem?_take, if_pos hj]
  · rw [List.getElem?_append_right (by simp only [List.length_append, hp]; omega),
      List.getElem?_drop]
    simp only [List.length_append, hp]
    congr 1
    omega

/-! ## Seek-grow followed by a write -/

/-- Seek-grow then write inside the range of `int` and the limit of
`kmalloc`: on a valid device a seek from the start to `t` with
`size < t ≤ KMALLOC_MAX_SIZE` makes size and position `t`, and the write that
follows returns 0 and changes neither the size nor the bytes. -/
theorem seek_grow_then_write_in_range (K : Nat) (device : fake_device) (f_pos : Int) (t : Nat)
    (buf : List Byte) (hv : valid device) (hK : K ≤ INT_MAX) (h1 : device.size < t)
    (h2 : t ≤ K) :
    ∃ s w, mycdrv_lseek K device f_pos t SEEK_SET false = some s ∧
      s.device.size = t ∧ s.f_pos = t ∧
      mycdrv_write s.device buf buf.length s.f_pos false 0 = some w ∧
      w.ret = 0 ∧ w.device.size = t ∧ w.device.ramdisk = s.device.ramdisk := by
  have ht : lseek_target device f_pos (t : Int) SEEK_SET = some (t : Int) := by
    simp [lseek_target]
  have hs := lseek_grow K device f_pos t SEEK_SET t hv hK ht h1 h2
  have hlen : (device.ramdisk ++ List.replicate (t - device.size) (0 : Byte)).length = t := by
    rw [List.length_append, List.length_replicate, hv.1]; omega
  have hv1 : valid { device with
      sem := up (device.sem - 1),
      ramdisk := device.ramdisk ++ List.replicate (t - device.size) 0,
      size := t } := ⟨hlen, le_trans h2 hK⟩
  have hw := write_eq _ buf (t : Int) hv1 (by omega) (le_refl _)
  have hm : min buf.length (t - t) = 0 := by omega
  simp only [Int.toNat_ofNat] at hw
  simp only [hm, Nat.cast_zero, add_zero, List.take_zero, List.append_nil] at hw
  refine ⟨_, _, hs, rfl, rfl, hw, rfl, rfl, ?_⟩
  show List.take t (device.ramdisk ++ List.replicate (t - device.size) 0)
      ++ List.drop t (device.ramdisk ++ List.replicate (t - device.size) 0)
    = device.ramdisk ++ List.replicate (t - device.size) 0
  exact List.take_append_drop _ _

/-! ## The claims on interruption, growth, lifecycle and frames -/

/-- C11. Interrupted guard acquisition causes no mutation: for read, write,
seek and ioctl, every device and every argument, when `down_interruptible`
returns non-zero the operation returns -1 and the device (bytes, size and
count of the guard) and the position are exactly as before. -/
theorem interrupted_acquisition_no_mutation (K : Nat) (access_ok : Nat → Nat → Bool)
    (device : fake_device) (signal : Bool) (lbuf left cmd arg : Nat) (buf : List Byte)
    (pos offset orig : Int) (h : (down_interruptible device.sem signal).1 ≠ 0) :
    mycdrv_read device lbuf pos signal left
      = some { ret := -1, buf := [], ppos := pos, device := device } ∧
    mycdrv_write device buf lbuf pos signal left
      = some { ret := -1, ppos := pos, device := device } ∧
    mycdrv_lseek K device pos offset orig signal
      = some { ret := -1, f_pos := pos, device := device } ∧
    mycdrv_ioctl access_ok device pos cmd arg signal
      = some { ret := -1, f_pos := pos, device := device } := by
  refine ⟨?_, ?_, ?_, ?_⟩
  · unfold mycdrv_read
    rw [if_pos h]
  · unfold mycdrv_write
    rw [if_pos h]
  · unfold mycdrv_lseek
    rw [if_pos h]
  · unfold mycdrv_ioctl
    rw [if_pos h]

/-- Witness of C11: a signal arrives while the guard of the device is held. -/
theorem interrupted_acquisition_no_mutation_witness :
    (down_interruptible busy_device.sem true).1 ≠ 0 ∧
    mycdrv_read busy_device 2 1 true 0
      = some { ret := -1, buf := [], ppos := 1, device := busy_device } ∧
    mycdrv_write busy_device [7, 8] 2 1 true 0
      = some { ret := -1, ppos := 1, device := busy_device } ∧
    mycdrv_lseek 4194304 busy_device 1 6 SEEK_SET true
      = some { ret := -1, f_pos := 1, device := busy_device } ∧
    mycdrv_ioctl access_ok_x86_64 busy_device 1 ASP_CLEAR_BUFF 0 true
      = some { ret := -1, f_pos := 1, device := busy_device } :=
  ⟨by decide,
    interrupted_acquisition_no_mutation 4194304 access_ok_x86_64 busy_device true 2 0
      ASP_CLEAR_BUFF 0 [7, 8] 1 6 SEEK_SET (by decide)⟩

/-- C12 at a failing input. On the device `my_init` creates (size 65536), the
seek `SEEK_SET` to `2^32 + 1` returns with the size still 65536 and the
position `2^32 + 1`, and the write of three bytes that follows does not
return 0: `maxbytes` is `(int)(65536 - 2^32 - 1) = 65535`, `bytes_to_do` is 3
and the copy goes to offset `2^32 + 1`, outside the 65536-byte block. -/
theorem seek_above_int_then_write_leaves_block (K : Nat) :
    mycdrv_lseek K (fresh_device 0) 0 4294967297 SEEK_SET false
      = some { ret := 4294967297, f_pos := 4294967297, device := fresh_device 0 } ∧
    mycdrv_write (fresh_device 0) [1, 2, 3] 3 4294967297 false 0 = none := by
  refine ⟨rfl, ?_⟩
  have hb : to_int (if to_size_t (to_int (to_size_t (((fresh_device 0).size : Int)
        - 4294967297))) > 3 then ((3 : Nat) : Int)
      else to_size_t (to_int (to_size_t (((fresh_device 0).size : Int) - 4294967297)))) = 3 := by
    decide
  have hn : to_size_t 3 = 3 := by decide
  have hin : in_block (fresh_device 0).ramdisk.length 4294967297 3 = false := by
    rw [fresh_length]; decide
  unfold mycdrv_write
  rw [down_interruptible_false]
  simp only [ne_eq, not_true_eq_false, if_false, hb, hn]
  simp [copy_from_user, poke, hin]

/-- C13. State survives close: `mycdrv_open` and `mycdrv_release` return 0 and
leave every device of `virtual_devices` (bytes and size) and the position of
the file as they were; open makes the file point to the device of the inode.
Hence after a release, an open of device `i` finds the array exactly as the
earlier operations left it. -/
theorem state_survives_close (virtual_devices : List fake_device) (i : Nat) (f g : file) :
    (mycdrv_open virtual_devices i f).ret = 0 ∧
    (mycdrv_open virtual_devices i f).virtual_devices = virtual_devices ∧
    (mycdrv_open virtual_devices i f).file.f_pos = f.f_pos ∧
    (mycdrv_open virtual_devices i f).file.private_data = some i ∧
    (mycdrv_release virtual_devices f).ret = 0 ∧
    (mycdrv_release virtual_devices f).virtual_devices = virtual_devices ∧
    (mycdrv_release virtual_devices f).file = f ∧
    (mycdrv_open (mycdrv_release virtual_devices f).virtual_devices i g).virtual_devices
      = virtual_devices ∧
    (mycdrv_open (mycdrv_release virtual_devices f).virtual_devices i g).virtual_devices[i]?
      = virtual_devices[i]? :=
  ⟨rfl, rfl, rfl, rfl, rfl, rfl, rfl, rfl, rfl⟩

/-- C14. Initialization postcondition: for every device count `n ≥ 0` and
capacity `c`, a `my_init` that returns 0 has built exactly `n` elements, and
element `i` (`i < n`) has `device_num = i`, size `c`, a ramdisk of `c` zero
bytes still allocated, and a guard with exactly one permit. -/
theorem init_postcondition (K S n c : Nat) (chr : Int) (cdev_add : Nat → Int)
    (slots : List slot) (h : my_init K S (n : Int) c chr cdev_add = some (0, slots)) :
    slots.length = n ∧
    ∀ i, i < n → ∃ s, slots[i]? = some s ∧
      s.device.device_num = i ∧ s.device.size = c ∧
      s.device.ramdisk = List.replicate c 0 ∧ s.ramdisk_live = true ∧
      s.device.sem = 1 := by
  unfold my_init at h
  split_ifs at h with h1 h2
  · simp only [Option.some.injEq, Prod.mk.injEq] at h
    omega
  · rw [Int.toNat_ofNat] at h
    have hs := my_init_loop_ok K c cdev_add n 0 [] slots h
    rw [List.nil_append] at hs
    subst hs
    refine ⟨by simp, ?_⟩
    intro i hi
    refine ⟨fresh_slot c i, ?_, rfl, rfl, rfl, rfl, rfl⟩
    rw [List.getElem?_map, List.getElem?_range' _ _ hi]
    simp

/-- Witness of C14: three devices of eight bytes. -/
theorem init_postcondition_witness :
    my_init 4194304 160 3 8 0 (fun _ => 0)
      = some (0, [fresh_slot 8 0, fresh_slot 8 1, fresh_slot 8 2]) ∧
    [fresh_slot 8 0, fresh_slot 8 1, fresh_slot 8 2].length = 3 ∧
    ∀ i : Nat, i < 3 → ∃ s, [fresh_slot 8 0, fresh_slot 8 1, fresh_slot 8 2][i]? = some s ∧
      s.device.device_num = (i : Int) ∧ s.device.size = 8 ∧
      s.device.ramdisk = List.replicate 8 0 ∧ s.ramdisk_live = true ∧
      s.device.sem = 1 :=
  ⟨by decide,
    init_postcondition 4194304 160 3 8 0 (fun _ => 0)
      [fresh_slot 8 0, fresh_slot 8 1, fresh_slot 8 2] (by decide)⟩

/-- C15 at a failing input. With the default three devices of sixteen pages
and `cdev_add` failing for device 1, `my_init` returns -1 and has freed the
block of device 1 only: the ramdisk of device 0, created before, is still
allocated. -/
theorem init_failure_keeps_earlier_store (K S : Nat) (hS : 3 * S ≤ K)
    (hc : ramdisk_size ≤ K) :
    my_init K S 3 ramdisk_size 0 (fun i => if i = 1 then -1 else 0)
      = some (-1,
          [ { device := { sem := 1, ramdisk := List.replicate ramdisk_size 0,
                          device_num := 0, size := ramdisk_size },
              ramdisk_live := true, cdev_live := true },
            { device := { sem := 0, ramdisk := List.replicate ramdisk_size 0,
                          device_num := 1, size := ramdisk_size },
              ramdisk_live := false, cdev_live := false } ]) :=
  my_init_fails_at_1 K S ramdisk_size hS hc

/-- Witness of the evaluation for C15 with a 4 MiB `KMALLOC_MAX_SIZE` and a
record of 160 bytes: the flags of the two blocks after the failure. -/
theorem init_failure_keeps_earlier_store_witness :
    3 * 160 ≤ 4194304 ∧ ramdisk_size ≤ 4194304 ∧
    (my_init 4194304 160 3 ramdisk_size 0 (fun i => if i = 1 then -1 else 0)).map
        (fun r => (r.1, r.2.map (fun s => s.ramdisk_live)))
      = some (-1, [true, false]) :=
  ⟨by decide, by decide, by
    rw [init_failure_keeps_earlier_store 4194304 160 (by decide) (by decide)]
    rfl⟩

/-- C16 fails as stated. The command `_IOR('k', 2, int)` has the driver's type
and is not the clear command, yet with the kernel address
`0xffff888000000000` as `arg`, which `access_ok` rejects, the ioctl returns
`-EFAULT`, not `-EINVAL`. -/
theorem ioctl_in_namespace_efault :
    IOC_TYPE (ioc IOC_READ CDRV_IOC_MAGIC 2 4) = CDRV_IOC_MAGIC ∧
    ioc IOC_READ CDRV_IOC_MAGIC 2 4 ≠ ASP_CLEAR_BUFF ∧
    (mycdrv_ioctl access_ok_x86_64 (fresh_device 0) 0 (ioc IOC_READ CDRV_IOC_MAGIC 2 4)
        18446612682070032384 false).map (fun r => r.ret) = some (-EFAULT) ∧
    -EFAULT ≠ -EINVAL := by
  decide

/-- C16 as amended. For every command other than the clear command and every
`arg` (guard acquired): a command whose type differs from the magic returns
`-ENOTTY`; a command of the driver's type returns `-EFAULT` when its
direction bits ask for a user transfer and `access_ok` rejects `arg`, and
`-EINVAL` otherwise. -/
theorem ioctl_error_codes (access_ok : Nat → Nat → Bool) (device : fake_device)
    (f_pos : Int) (cmd arg : Nat) (h : cmd ≠ ASP_CLEAR_BUFF) :
    ∃ r, mycdrv_ioctl access_ok device f_pos cmd arg false = some r ∧
      r.ret =
        (if IOC_TYPE cmd ≠ CDRV_IOC_MAGIC then -ENOTTY
         else if (IOC_DIR cmd &&& IOC_READ ≠ 0 ∨ IOC_DIR cmd &&& IOC_WRITE ≠ 0)
             ∧ access_ok arg (IOC_SIZE cmd) = false then -EFAULT
         else -EINVAL) := by
  unfold mycdrv_ioctl
  rw [down_interruptible_false]
  simp only [ne_eq, not_true_eq_false, if_false, h]
  by_cases ht : IOC_TYPE cmd = CDRV_IOC_MAGIC
  · by_cases hr : IOC_DIR cmd &&& IOC_READ = 0
    · by_cases hw : IOC_DIR cmd &&& IOC_WRITE = 0
      · simp [ht, hr, hw]
      · cases ha : access_ok arg (IOC_SIZE cmd) <;> simp [ht, hr, hw, ha]
    · cases ha : access_ok arg (IOC_SIZE cmd) <;> simp [ht, hr, ha]
  · simp [ht]

/-- Witness of the amended C16: the three results on the four-byte device. -/
theorem ioctl_error_codes_witness :
    ioc IOC_READ CDRV_IOC_MAGIC 2 4 ≠ ASP_CLEAR_BUFF ∧
    ∃ r, mycdrv_ioctl access_ok_x86_64 tiny_device 0 (ioc IOC_READ CDRV_IOC_MAGIC 2 4)
        4096 false = some r ∧
      r.ret =
        (if IOC_TYPE (ioc IOC_READ CDRV_IOC_MAGIC 2 4) ≠ CDRV_IOC_MAGIC then -ENOTTY
         else if (IOC_DIR (ioc IOC_READ CDRV_IOC_MAGIC 2 4) &&& IOC_READ ≠ 0
               ∨ IOC_DIR (ioc IOC_READ CDRV_IOC_MAGIC 2 4) &&& IOC_WRITE ≠ 0)
             ∧ access_ok_x86_64 4096 (IOC_SIZE (ioc IOC_READ CDRV_IOC_MAGIC 2 4)) = false
           then -EFAULT
         else -EINVAL) :=
  ⟨by decide,
    ioctl_error_codes access_ok_x86_64 tiny_device 0 (ioc IOC_READ CDRV_IOC_MAGIC 2 4) 4096
      (by decide)⟩

/-- C17 at a failing input. From the state `my_init` creates (position 0, size
65536) the single call `lseek(2^32 + 1, SEEK_SET)` leads to a state whose
position `2^32 + 1` is above its size 65536. -/
theorem position_leaves_store (K : Nat) (access_ok : Nat → Nat → Bool) :
    run K access_ok (fresh_device 0, 0) [call.lseek 4294967297 SEEK_SET false]
      = some (fresh_device 0, 4294967297) ∧
    ((fresh_device 0).size : Int) < 4294967297 := by
  refine ⟨rfl, ?_⟩
  decide

/-- C18. The store never shrinks: for every device and every call of read,
write, seek (any origin, any offset) or ioctl with any arguments, the size
after the call is at least the size before the call. -/
theorem size_never_shrinks (K : Nat) (access_ok : Nat → Nat → Bool) (device : fake_device)
    (pos : Int) (c : call) (s : fake_device × Int)
    (h : step K access_ok (device, pos) c = some s) : device.size ≤ s.1.size := by
  cases c with
  | read lbuf signal left =>
    simp only [step, Option.map_eq_some'] at h
    obtain ⟨r, hr, rfl⟩ := h
    exact le_of_eq (read_size _ _ _ _ _ _ hr).symm
  | write buf lbuf signal left =>
    simp only [step, Option.map_eq_some'] at h
    obtain ⟨r, hr, rfl⟩ := h
    exact le_of_eq (write_size _ _ _ _ _ _ _ hr).symm
  | lseek offset orig signal =>
    simp only [step, Option.map_eq_some'] at h
    obtain ⟨r, hr, rfl⟩ := h
    exact lseek_size _ _ _ _ _ _ _ hr
  | ioctl cmd arg signal =>
    simp only [step, Option.map_eq_some'] at h
    obtain ⟨r, hr, rfl⟩ := h
    exact le_of_eq (ioctl_size _ _ _ _ _ _ _ hr).symm

/-- Witness of C18: a seek that grows the four-byte device to six bytes. -/
theorem size_never_shrinks_witness :
    step 4194304 access_ok_x86_64 (tiny_device, 0) (call.lseek 6 SEEK_SET false)
      = some ({ tiny_device with ramdisk := [1, 2, 3, 4, 0, 0], size := 6 }, 6) ∧
    tiny_device.size ≤ 6 :=
  ⟨by decide,
    size_never_shrinks 4194304 access_ok_x86_64 tiny_device 0 (call.lseek 6 SEEK_SET false)
      ({ tiny_device with ramdisk := [1, 2, 3, 4, 0, 0], size := 6 }, 6) (by decide)⟩

/-- C19. Guard is released on every exit path: for read, write, seek and
ioctl, every device whose guard has a permit to acquire and every argument,
whatever path the operation returns by (success, invalid origin, wrong
command type, address fault, unknown command), the count of the guard on
return equals the count before the call. -/
theorem guard_released_on_every_path (K : Nat) (access_ok : Nat → Nat → Bool)
    (device : fake_device) (pos : Int) (c : call) (s : fake_device × Int)
    (hfree : 0 < device.sem) (h : step K access_ok (device, pos) c = some s) :
    s.1.sem = device.sem := by
  have hup : ∀ signal, (if (down_interruptible device.sem signal).1 ≠ 0 then device.sem
      else up (down_interruptible device.sem signal).2) = device.sem := by
    intro signal
    rw [down_interruptible_free _ _ hfree]
    simp only [ne_eq, not_true_eq_false, if_false, up]
    omega
  cases c with
  | read lbuf signal left =>
    simp only [step, Option.map_eq_some'] at h
    obtain ⟨r, hr, rfl⟩ := h
    exact (read_sem _ _ _ _ _ _ hr).trans (hup signal)
  | write buf lbuf signal left =>
    simp only [step, Option.map_eq_some'] at h
    obtain ⟨r, hr, rfl⟩ := h
    exact (write_sem _ _ _ _ _ _ _ hr).trans (hup signal)
  | lseek offset orig signal =>
    simp only [step, Option.map_eq_some'] at h
    obtain ⟨r, hr, rfl⟩ := h
    exact (lseek_sem _ _ _ _ _ _ _ hr).trans (hup signal)
  | ioctl cmd arg signal =>
    simp only [step, Option.map_eq_some'] at h
    obtain ⟨r, hr, rfl⟩ := h
    exact (ioctl_sem _ _ _ _ _ _ _ hr).trans (hup signal)

/-- Witness of C19: a write of two bytes at position 1 of the four-byte
device. -/
theorem guard_released_on_every_path_witness :
    0 < tiny_device.sem ∧
    step 4194304 access_ok_x86_64 (tiny_device, 1) (call.write [7, 8] 2 true 0)
      = some ({ tiny_device with ramdisk := [1, 7, 8, 4] }, 3) ∧
    ({ tiny_device with ramdisk := [1, 7, 8, 4] }, (3 : Int)).1.sem = tiny_device.sem :=
  ⟨by decide, by decide,
    guard_released_on_every_path 4194304 access_ok_x86_64 tiny_device 1
      (call.write [7, 8] 2 true 0) ({ tiny_device with ramdisk := [1, 7, 8, 4] }, 3)
      (by decide) (by decide)⟩

/-- C20. Write frame: on a valid device with `0 ≤ position ≤ size`, for every
input `buf`, the write returns a count `n ≥ 0` (guard acquired, user copy
complete) after which the bytes `[position, position + n)` of the store are
the first `n` bytes of `buf` and every byte at an index outside
`[position, position + n)` is the byte that was there before. -/
theorem write_frame (device : fake_device) (buf : List Byte) (ppos : Int)
    (hv : valid device) (h0 : 0 ≤ ppos) (h1 : ppos ≤ device.size) :
    ∃ w, mycdrv_write device buf buf.length ppos false 0 = some w ∧
      0 ≤ w.ret ∧ w.ret ≤ buf.length ∧
      (∀ i, i < w.ret.toNat → w.device.ramdisk[ppos.toNat + i]? = buf[i]?) ∧
      (∀ j, j < ppos.toNat ∨ ppos.toNat + w.ret.toNat ≤ j →
        w.device.ramdisk[j]? = device.ramdisk[j]?) := by
  have hw := write_eq device buf ppos hv h0 h1
  obtain ⟨hlen, hsize⟩ := hv
  generalize hn : min buf.length (device.size - ppos.toNat) = n at hw
  have hX : (buf.take n).length = n := by
    simp only [List.length_take]; omega
  have hfit : ppos.toNat + (buf.take n).length ≤ device.ramdisk.length := by
    rw [hX, hlen]; omega
  refine ⟨_, hw, ?_, ?_, ?_, ?_⟩
  · show (0 : Int) ≤ (n : Int)
    omega
  · show (n : Int) ≤ (buf.length : Int)
    omega
  · intro i hi
    simp only [Int.toNat_ofNat] at hi
    show (device.ramdisk.take ppos.toNat ++ buf.take n
      ++ device.ramdisk.drop (ppos.toNat + n))[ppos.toNat + i]? = buf[i]?
    have := splice_get_inside device.ramdisk (buf.take n) ppos.toNat i hfit (by omega)
    rw [hX] at this
    rw [this, List.getElem?_take, if_pos hi]
  · intro j hj
    simp only [Int.toNat_ofNat] at hj
    show (device.ramdisk.take ppos.toNat ++ buf.take n
      ++ device.ramdisk.drop (ppos.toNat + n))[j]? = device.ramdisk[j]?
    have := splice_get_outside device.ramdisk (buf.take n) ppos.toNat j hfit (by omega)
    rw [hX] at this
    exact this

/-- Witness of C20 on the four-byte device: two bytes offered at position 3,
one stored. -/
theorem write_frame_witness :
    valid tiny_device ∧ (0 : Int) ≤ 3 ∧ (3 : Int) ≤ tiny_device.size ∧
    ∃ w, mycdrv_write tiny_device [7, 8] 2 3 false 0 = some w ∧
      0 ≤ w.ret ∧ w.ret ≤ 2 ∧
      (∀ i, i < w.ret.toNat →
        w.device.ramdisk[(3 : Int).toNat + i]? = ([7, 8] : List Byte)[i]?) ∧
      (∀ j, j < (3 : Int).toNat ∨ (3 : Int).toNat + w.ret.toNat ≤ j →
        w.device.ramdisk[j]? = tiny_device.ramdisk[j]?) :=
  ⟨by decide, by decide, by decide,
    write_frame tiny_device [7, 8] 3 (by decide) (by decide) (by decide)⟩

end CharDriver
